import Mathlib

/-!
Verification of the Document model and query layer.

The development embeds the repository directly:

* `Document` mirrors the persisted entity of `documents/models.py`:
  an integer primary key `id`, an `owner` reference, a required `title`,
  an optional `content`, the boolean `active` flag, the optional
  activation timestamp `active_at`, and the bookkeeping timestamps
  `created_at` and `updated_at`.  Timestamps are modelled as natural
  numbers; the wall clock enters `save` as an explicit `now` argument
  standing for `timezone.now()`.

* `Document.save` mirrors the overridden `save` method: the pre-save
  adjustment of `active_at` (factored out as `applyActivationInvariant`)
  followed by the framework save, whose only modelled effect on an
  update is refreshing `updated_at` (the `auto_now` column).

* The store is a list of documents.  The two ORM queries issued by
  `AI/tools.py` are modelled as state-passing primitives
  (`objectsFilterActive` for `Document.objects.filter(active=True)` and
  `objectsGetActive` for `Document.objects.get(id=..., active=True)`)
  that return their result together with the store they leave behind, so
  that read-onlyness is a statable property of the embedding.

* The dictionaries built by the tools are embedded as association lists
  from string keys to `Value`s, so that claims about which keys a result
  carries can be stated and proved.
-/

structure Document where
  id : Nat
  owner : Nat
  title : String
  content : Option String
  active : Bool
  active_at : Option Nat
  created_at : Nat
  updated_at : Nat
  deriving Repr, DecidableEq

/-- The pre-save transform of `active_at` performed by `Document.save` in
`documents/models.py`: if `active` holds and `active_at` is unset it is set
to the current time; if `active` is false it is cleared; otherwise the
record is untouched. -/
def applyActivationInvariant (d : Document) (now : Nat) : Document :=
  if d.active && d.active_at.isNone then { d with active_at := some now }
  else if !d.active then { d with active_at := none }
  else d

/-- The overridden `save`: apply the activation-timestamp transform, then
perform the framework save, which refreshes the `auto_now` column
`updated_at`. -/
def Document.save (d : Document) (now : Nat) : Document :=
  { applyActivationInvariant d now with updated_at := now }

/-- Values stored in the plain dictionaries returned by the query layer. -/
inductive Value where
  | int : Nat → Value
  | str : String → Value
  deriving Repr, DecidableEq

/-- A Python dictionary with string keys, as built by `AI/tools.py`. -/
abbrev JsonObj := List (String × Value)

/-- The `{"id": obj.id, "title": obj.title}` projection used by both tools. -/
def docProj (d : Document) : JsonObj :=
  [("id", Value.int d.id), ("title", Value.str d.title)]

/-- `Document.objects.filter(active=True)`: the matching records, paired
with the store state after the query. -/
def objectsFilterActive (db : List Document) : List Document × List Document :=
  (db.filter (fun d => d.active), db)

/-- `Document.objects.get(id=document_id, active=True)`: the matching
record if any (`none` models the `DoesNotExist` outcome), paired with the
store state after the query. -/
def objectsGetActive (db : List Document) (document_id : Nat) :
    Option Document × List Document :=
  (db.find? (fun d => d.id == document_id && d.active), db)

/-- `list_documents` from `AI/tools.py`, with the store it leaves behind:
filter the active documents and project each to `{id, title}`. -/
def list_documents_run (db : List Document) : List JsonObj × List Document :=
  let p := objectsFilterActive db
  (p.1.map docProj, p.2)

/-- The value returned by `list_documents`. -/
def list_documents (db : List Document) : List JsonObj :=
  (list_documents_run db).1

/-- `get_document` from `AI/tools.py`, with the store it leaves behind:
look the record up by id among the active documents; on success return the
`{id, title}` projection, on `DoesNotExist` return the structured error
dictionary. -/
def get_document_run (db : List Document) (document_id : Nat) :
    JsonObj × List Document :=
  let p := objectsGetActive db document_id
  match p.1 with
  | some obj => (docProj obj, p.2)
  | none => ([("error", Value.str "Document not found.")], p.2)

/-- The value returned by `get_document`. -/
def get_document (db : List Document) (document_id : Nat) : JsonObj :=
  (get_document_run db document_id).1

/-- Primary keys are unique in the store: distinct records have distinct
ids.  This is the uniqueness the framework guarantees for the `id`
column. -/
def uniqueIds (db : List Document) : Prop :=
  db.Pairwise (fun a b => a.id ≠ b.id)

instance (db : List Document) : Decidable (uniqueIds db) := by
  unfold uniqueIds
  infer_instance

/-- An active document with its activation timestamp already set. -/
def docA : Document := ⟨1, 1, "Report", none, true, some 3, 0, 0⟩

/-- An inactive document. -/
def docB : Document := ⟨2, 1, "Draft", none, false, none, 0, 0⟩

/-- An active document whose activation timestamp is still unset. -/
def docC : Document := ⟨3, 1, "New", none, true, none, 0, 0⟩

/-- An inactive document whose activation timestamp is stale. -/
def docD : Document := ⟨4, 1, "Old", none, false, some 9, 0, 0⟩

/-- C1: saving a document that is active with `active_at` unset sets
`active_at` to the current time, and saving a document that is active with
`active_at` already set leaves `active_at` unchanged. -/
theorem save_records_first_activation (d : Document) (now : Nat) :
    (d.active = true → d.active_at = none → (d.save now).active_at = some now) ∧
    (d.active = true → ∀ t, d.active_at = some t → (d.save now).active_at = some t) := by
  constructor
  · intro ha hn
    simp [Document.save, applyActivationInvariant, ha, hn]
  · intro ha t ht
    simp [Document.save, applyActivationInvariant, ha, ht]

/-- Witness for C1: saving the never-activated active `docC` at time 5
stamps 5, and re-saving the already-activated `docA` keeps its stamp 3. -/
theorem save_records_first_activation_witness :
    (docC.save 5).active_at = some 5 ∧ (docA.save 5).active_at = some 3 :=
  ⟨(save_records_first_activation docC 5).1 rfl rfl,
   (save_records_first_activation docA 5).2 rfl 3 rfl⟩

/-- C2: saving a document whose `active` flag is false clears `active_at`,
whatever value it held before the save. -/
theorem save_clears_active_at (d : Document) (now : Nat) (h : d.active = false) :
    (d.save now).active_at = none := by
  simp [Document.save, applyActivationInvariant, h]

/-- Witness for C2: saving the inactive `docD`, whose stale stamp is 9,
clears the stamp. -/
theorem save_clears_active_at_witness : (docD.save 7).active_at = none :=
  save_clears_active_at docD 7 rfl

/-- C7: after any save the activation timestamp is set exactly when the
document is active, whatever the fields held before the save. -/
theorem save_enforces_invariant (d : Document) (now : Nat) :
    ((d.save now).active_at).isSome = (d.save now).active := by
  rcases ha : d.active with _ | _ <;> rcases ht : d.active_at with _ | t <;>
    simp [Document.save, applyActivationInvariant, ha, ht]

/-- C9: the pre-save adjustment of `active_at` is idempotent: applying it
again right after a first application, at any later clock reading, leaves
`active_at` exactly as the first application did. -/
theorem applyActivationInvariant_idem (d : Document) (n1 n2 : Nat) :
    (applyActivationInvariant (applyActivationInvariant d n1) n2).active_at =
      (applyActivationInvariant d n1).active_at := by
  rcases ha : d.active with _ | _ <;> rcases ht : d.active_at with _ | t <;>
    simp [applyActivationInvariant, ha, ht]

/-- Under unique primary keys, the lookup issued by `get_document` finds
exactly the stored active document bearing the requested id. -/
theorem find_active_of_mem (db : List Document) (d : Document) (i : Nat)
    (hu : uniqueIds db) (hd : d ∈ db) (hi : d.id = i) (ha : d.active = true) :
    db.find? (fun x => x.id == i && x.active) = some d := by
  induction db with
  | nil => cases hd
  | cons x xs ih =>
    obtain ⟨hx, hxs⟩ := List.pairwise_cons.mp hu
    rcases List.mem_cons.mp hd with h | h
    · subst h
      simp [List.find?_cons, hi, ha]
    · have hne : (x.id == i) = false := by
        rw [beq_eq_false_iff_ne, ← hi]
        exact hx d h
      simp only [List.find?_cons, hne, Bool.false_and]
      exact ih hxs h

/-- C3: under unique primary keys, `list_documents` returns exactly the
`{id, title}` projections of the active documents: a dictionary is in the
result precisely when it projects some stored active document, and no
inactive document contributes its id to the result. -/
theorem list_documents_exactly_active (db : List Document) (hu : uniqueIds db) :
    (∀ o, o ∈ list_documents db ↔ ∃ d, d ∈ db ∧ d.active = true ∧ o = docProj d) ∧
    (∀ d, d ∈ db → d.active = false →
      Value.int d.id ∉ (list_documents db).filterMap (fun o => o.lookup "id")) := by
  have h1 : ∀ o, o ∈ list_documents db ↔
      ∃ d, d ∈ db ∧ d.active = true ∧ o = docProj d := by
    intro o
    simp only [list_documents, list_documents_run, objectsFilterActive, List.mem_map,
      List.mem_filter]
    constructor
    · rintro ⟨d, ⟨hdm, hda⟩, rfl⟩
      exact ⟨d, hdm, hda, rfl⟩
    · rintro ⟨d, hdm, hda, rfl⟩
      exact ⟨d, ⟨hdm, hda⟩, rfl⟩
  refine ⟨h1, ?_⟩
  intro d hdm hda hmem
  rw [List.mem_filterMap] at hmem
  obtain ⟨o, ho, hlook⟩ := hmem
  obtain ⟨d2, hd2m, hd2a, rfl⟩ := (h1 o).mp ho
  have hval : Value.int d2.id = Value.int d.id := by
    simpa [docProj, List.lookup] using hlook
  have hid : d2.id = d.id := by injection hval
  have hsym : Symmetric (fun a b : Document => a.id ≠ b.id) :=
    fun a b h he => h he.symm
  by_cases heq : d2 = d
  · subst heq
    rw [hd2a] at hda
    cases hda
  · exact (List.Pairwise.forall hsym hu) hd2m hdm heq hid

/-- Witness for C3: in the two-document store `[docA, docB]`, which has
unique ids, the projection of the active `docA` is listed. -/
theorem list_documents_exactly_active_witness :
    docProj docA ∈ list_documents [docA, docB] :=
  ((list_documents_exactly_active [docA, docB] (by decide)).1 (docProj docA)).mpr
    ⟨docA, List.mem_cons_self docA [docB], rfl, rfl⟩

/-- C4: under unique primary keys, `get_document` applied to the id of a
stored active document returns the dictionary carrying exactly that
document's id and title. -/
theorem get_document_success (db : List Document) (i : Nat) (d : Document)
    (hu : uniqueIds db) (hd : d ∈ db) (hi : d.id = i) (ha : d.active = true) :
    get_document db i = [("id", Value.int d.id), ("title", Value.str d.title)] := by
  have hf := find_active_of_mem db d i hu hd hi ha
  simp [get_document, get_document_run, objectsGetActive, hf, docProj]

/-- Witness for C4: fetching id 1 from `[docA, docB]` returns the id and
title of `docA`. -/
theorem get_document_success_witness :
    get_document [docA, docB] 1 =
      [("id", Value.int docA.id), ("title", Value.str docA.title)] :=
  get_document_success [docA, docB] 1 docA (by decide)
    (List.mem_cons_self docA [docB]) rfl rfl

/-- C5: `get_document` returns the structured error dictionary exactly
when the store holds no active document with the requested id; both
outcomes are ordinary return values of the same total function. -/
theorem get_document_error_iff (db : List Document) (i : Nat) :
    get_document db i = [("error", Value.str "Document not found.")] ↔
      ¬ ∃ d, d ∈ db ∧ d.id = i ∧ d.active = true := by
  rcases hf : db.find? (fun d => d.id == i && d.active) with _ | d
  · simp only [get_document, get_document_run, objectsGetActive, hf, true_iff]
    rintro ⟨d, hdm, hdi, hda⟩
    have hnp := List.find?_eq_none.mp hf d hdm
    simp [hdi, hda] at hnp
  · have hdm := List.mem_of_find?_eq_some hf
    have hp := List.find?_some hf
    rw [Bool.and_eq_true, beq_iff_eq] at hp
    simp only [get_document, get_document_run, objectsGetActive, hf, docProj]
    constructor
    · intro h
      simp at h
    · intro h
      exact absurd ⟨d, hdm, hp.1, hp.2⟩ h

/-- C6: `list_documents` never fails: it is a total function of the store,
and it returns the empty sequence exactly when the store holds no active
document (in particular on an empty store). -/
theorem list_documents_empty_iff_no_active (db : List Document) :
    list_documents db = [] ↔ ∀ d, d ∈ db → d.active = false := by
  simp only [list_documents, list_documents_run, objectsFilterActive,
    List.map_eq_nil_iff, List.filter_eq_nil_iff]
  constructor
  · intro h d hd
    have := h d hd
    simpa using this
  · intro h d hd
    simp [h d hd]

/-- C8: the query layer is read-only: invoking either tool leaves the
store it ran against unchanged. -/
theorem query_layer_read_only (db : List Document) (i : Nat) :
    (list_documents_run db).2 = db ∧ (get_document_run db i).2 = db := by
  refine ⟨rfl, ?_⟩
  rcases hf : db.find? (fun d => d.id == i && d.active) with _ | d <;>
    simp [get_document_run, objectsGetActive, hf]

/-- C10: the two result shapes of `get_document` are disjoint: a success
carries exactly the keys `id` and `title` and no `error` key, while the
not-found result carries exactly the key `error`, bound to the error
message; so branching on the `error` key is unambiguous. -/
theorem get_document_result_shapes (db : List Document) (i : Nat) :
    ((get_document db i).map Prod.fst = ["id", "title"] ∧
      (get_document db i).lookup "error" = none) ∨
    ((get_document db i).map Prod.fst = ["error"] ∧
      (get_document db i).lookup "error" =
        some (Value.str "Document not found.")) := by
  rcases hf : db.find? (fun d => d.id == i && d.active) with _ | d
  · right
    simp [get_document, get_document_run, objectsGetActive, hf, List.lookup]
  · left
    simp [get_document, get_document_run, objectsGetActive, hf, docProj,
      List.lookup]
